import Mathlib

/-!
Verification development for the eevee versioned bulk-indexing pipeline
(`eevee/indexing/indexes.py`, `eevee/indexing/indexers.py`, `eevee/utils.py`).

The Python code is shallowly embedded: dictionaries become structures,
Python `None` becomes `Option.none`, Python sets become duplicate-free
lists maintained by an insert-if-absent operation, and the elasticsearch
cluster (an external collaborator) is abstracted as oracle functions
passed into the worker model.
-/

/-- The schemaless `data` payload of a revision: an opaque ordered
string-keyed map, carried verbatim into the bulk payload. -/
abbrev Data := List (String × String)

/-- A source document drawn from mongo.  `versions_data` is the revision
history: one `(version, data)` entry per element of the document's
`versions` list, in the order stored in the document. -/
structure MongoDoc where
  id : Int
  versions_data : List (Int × Data)
deriving DecidableEq, Repr

/-- Modelled from the spec: `get_versions_and_data` (defined in
`eevee.indexing.utils`, which is not under `src/`) yields the
`(version, data)` pairs of a mongo document, one per entry of the
document's `versions` list, walking the version list in its stored
order.  In this embedding the document's revision history is stored
directly as that list of pairs. -/
def get_versions_and_data (mongo_doc : MongoDoc) : List (Int × Data) :=
  mongo_doc.versions_data

/-- Modelled from the spec: `iter_pairs` (`eevee.utils`, the function is
not present in the `src/` copy of `eevee/utils.py`) pairs each element
of an iterator with the element that follows it, pairing the final
element with the supplied final partner.  The Python final partner
`(None, None)` is embedded as `Option.none` on the second component. -/
def iter_pairs {α : Type} (xs : List α) : List (α × Option α) :=
  xs.zip (xs.tail.map some ++ [none])

/-- Modelled from the spec: `DOC_TYPE` (`eevee.indexing.utils`, not under
`src/`) is the fixed elasticsearch document type; the comment in
`indexes.py` fixes it as the string below. -/
def DOC_TYPE : String := "_doc"

/-- The `action` half of a bulk command pair: the dict
`\x7b index: \x7b _id, _type, _index \x7d \x7d` from `Index.create_action`. -/
structure BulkAction where
  action_id : String
  action_type : String
  action_index : String
deriving DecidableEq, Repr

/-- The nested `versions` range of the metadata dict: `gte` is always
present, `lt` only when a truthy next version exists. -/
structure VersionsRange where
  gte : Int
  lt : Option Int
deriving DecidableEq, Repr

/-- The `meta` dict built by `Index.create_metadata`. -/
structure Metadata where
  versions : VersionsRange
  version : Int
  next_version : Option Int
deriving DecidableEq, Repr

/-- The payload half of a bulk command pair (`Index.create_index_document`). -/
structure IndexDoc where
  data : Data
  meta : Metadata
deriving DecidableEq, Repr

/-- A bulk command pair `(action, payload)`. -/
abbrev BulkCommand := BulkAction × IndexDoc

/-- An elasticsearch index target (`Index.__init__`).  The Python object
stores `config` and precomputes the prefixed name; here the relevant
config value is stored directly and the prefixed name is computed by
`Index.name`. -/
structure Index where
  elasticsearch_index_prefix_str : String
  unprefixed_name : String
  version : Int
deriving DecidableEq, Repr

/-- The prefixed index name computed in `Index.__init__`. -/
def Index.name (idx : Index) : String :=
  idx.elasticsearch_index_prefix_str ++ idx.unprefixed_name

/-- Python truthiness of an optional integer: `None` and `0` are falsy. -/
def py_truthy (o : Option Int) : Bool :=
  match o with
  | none => false
  | some v => v != 0

/-- `Index.create_action`: the action dict with
`_id = str(record_id) + ":" + str(version)`. -/
def Index.create_action (idx : Index) (record_id : Int) (version : Int) : BulkAction :=
  { action_id := toString record_id ++ ":" ++ toString version
    action_type := DOC_TYPE
    action_index := idx.name }

/-- `Index.create_data`: returns the data verbatim. -/
def Index.create_data (_idx : Index) (data : Data) : Data :=
  data

/-- `Index.create_metadata`: `versions.gte` and `version` always hold the
version; the Python code guards the `lt`/`next_version` entries with
`if next_version:`, which is a truthiness test (false for `None` and for
`0`). -/
def Index.create_metadata (version : Int) (next_version : Option Int) : Metadata :=
  if py_truthy next_version then
    { versions := { gte := version, lt := next_version }
      version := version
      next_version := next_version }
  else
    { versions := { gte := version, lt := none }
      version := version
      next_version := none }

/-- `Index.create_index_document`: pairs the verbatim data with the
metadata. -/
def Index.create_index_document (idx : Index) (data : Data) (version : Int)
    (next_version : Option Int) : IndexDoc :=
  { data := idx.create_data data, meta := Index.create_metadata version next_version }

/-- `Index.get_commands`: walk the `(version, data)` pairs with their
successors (final partner `None`) and emit one `(action, payload)` pair
per revision. -/
def Index.get_commands (idx : Index) (mongo_doc : MongoDoc) : List BulkCommand :=
  (iter_pairs (get_versions_and_data mongo_doc)).map fun pe =>
    (idx.create_action mongo_doc.id pe.1.1,
     idx.create_index_document pe.1.2 pe.1.1 (pe.2.map Prod.fst))

/-! ### The indexing worker (`IndexingProcess`, `indexers.py`)

The elasticsearch cluster is external; its bulk endpoint and its
id-existence query are abstracted as oracle functions in `WorkerEnv`.
Queue writes are recorded as lists (oldest first). -/

/-- One entry of a bulk response's `items` list: the values the worker
reads from it (`info["_index"]` and `info["result"]`). -/
structure EsItem where
  item_index : String
  item_result : String
deriving DecidableEq, Repr

/-- A bulk response: the top-level `errors` flag and the `items` list. -/
structure EsResponse where
  errors : Bool
  items : List EsItem
deriving DecidableEq, Repr

/-- Outcome of a bulk call: either a response, or a transport-level
exception raised by the client (carried as its Python `repr` string). -/
inductive BulkOutcome where
  | resp (r : EsResponse)
  | transport_error (repr_string : String)

/-- The exceptions that can escape the worker's processing loop. -/
inductive WorkerExc where
  | bulk_indexing (response : EsResponse)
  | transport (repr_string : String)
deriving DecidableEq, Repr

/-- Python `repr(e)` of a worker exception: the class name with its
message, so the kind of the exception is included. -/
def repr_exc : WorkerExc → String
  | .bulk_indexing _ =>
      "ElasticsearchBulkIndexingException(\x27Elasticsearch indexing failed\x27)"
  | .transport s => s

/-- A `collections.Counter`: an insertion-ordered string-keyed multiset. -/
abbrev Counter := List (String × Nat)

/-- The worker's `stats` attribute, a `defaultdict(Counter)`. -/
abbrev Stats := List (String × Counter)

/-- Increment one key of a counter (inserting it at the end if absent,
as a Python dict does). -/
def counter_incr : Counter → String → Counter
  | [], k => [(k, 1)]
  | (k', n) :: rest, k =>
      if k' = k then (k', n + 1) :: rest else (k', n) :: counter_incr rest k

/-- `stats[index_name][kind] += 1` on the defaultdict of counters. -/
def stats_incr : Stats → String → String → Stats
  | [], index_name, k => [(index_name, counter_incr [] k)]
  | (n, c) :: rest, index_name, k =>
      if n = index_name then (n, counter_incr c k) :: rest
      else (n, c) :: stats_incr rest index_name k

/-- The worker's id buffer: a dict from integer record id to the latest
payload of that record in the batch, in insertion order. -/
abbrev IdBuffer := List (Int × IndexDoc)

/-- Python dict assignment `d[k] = v`: replace in place or append. -/
def idbuf_set : IdBuffer → Int → IndexDoc → IdBuffer
  | [], k, v => [(k, v)]
  | (k', v') :: rest, k, v =>
      if k' = k then (k, v) :: rest else (k', v') :: idbuf_set rest k v

/-- Python `set.add`, on a duplicate-free list. -/
def set_insert (s : List Int) (v : Int) : List Int :=
  if v ∈ s then s else s ++ [v]

/-- Python `set.update`, on a duplicate-free list. -/
def set_update (s : List Int) (vs : List Int) : List Int :=
  vs.foldl set_insert s

/-- `IndexingProcess.collect_stats`: with no stats queue, two empty
lists; on a clean insert everything is created; otherwise the ids that
already exist in the target index (per the cluster query, abstracted as
the `index_contains` oracle) are updated and the rest created. -/
def collect_stats (stats_queue_present : Bool) (is_clean_insert : Bool)
    (index_contains : Int → Bool) (ids : IdBuffer) : List Int × List Int :=
  if stats_queue_present = false then ([], [])
  else
    let all_ids := ids.map Prod.fst
    if is_clean_insert then (all_ids, [])
    else
      let updated := all_ids.filter index_contains
      (all_ids.filter fun i => ! index_contains i, updated)

/-- The per-worker configuration plus the external-cluster oracles. -/
structure WorkerEnv where
  process_id : Nat
  index : Index
  is_clean_insert : Bool
  elasticsearch_bulk_size : Nat
  stats_queue_present : Bool
  es_bulk : List BulkCommand → BulkOutcome
  es_contains : Int → Bool

/-- A message placed on the stats queue:
`(unprefixed index name, created ids, updated ids, id buffer)`. -/
abbrev StatsMsg := String × List Int × List Int × IdBuffer

/-- The worker attributes mutated while running, plus the record of
stats-queue writes. -/
structure WorkerState where
  command_count : Nat
  versions : List Int
  stats : Stats
  stats_pushes : List StatsMsg
deriving DecidableEq, Repr

/-- `IndexingProcess.send_to_elasticsearch`: count the commands, collect
created/updated stats, pre-delete (cluster-only effect), submit the
bulk request, raise on `errors: true`, fold the response items into the
stats counters and push onto the stats queue when present. -/
def send_to_elasticsearch (env : WorkerEnv) (st : WorkerState)
    (commands : List BulkCommand) (ids : IdBuffer) : Except WorkerExc WorkerState :=
  let st1 : WorkerState := { st with command_count := st.command_count + commands.length }
  let cu := collect_stats env.stats_queue_present env.is_clean_insert env.es_contains ids
  match env.es_bulk commands with
  | .transport_error r => .error (.transport r)
  | .resp response =>
      if response.errors then .error (.bulk_indexing response)
      else
        let st2 : WorkerState := { st1 with
          stats := response.items.foldl
            (fun acc it => stats_incr acc it.item_index it.item_result) st1.stats }
        let st3 : WorkerState :=
          if env.stats_queue_present then
            { st2 with stats_pushes :=
                st2.stats_pushes ++ [(env.index.unprefixed_name, cu.1, cu.2, ids)] }
          else st2
        .ok st3

/-- The worker's loop-local buffers together with its mutable attributes. -/
structure LoopState where
  ws : WorkerState
  command_buffer : List BulkCommand
  id_buffer : IdBuffer
deriving DecidableEq, Repr

/-- One iteration of the worker main loop for one mongo document:
synthesize the commands; if any, fold their versions into the seen set,
extend the command buffer and set the id-buffer entry to the last
(newest-revision) payload; then flush when the buffer has reached the
bulk size.  The returned flag records whether a flush happened. -/
def run_iteration (env : WorkerEnv) (ls : LoopState) (mongo_doc : MongoDoc) :
    Except WorkerExc (LoopState × Bool) :=
  let ls1 : LoopState :=
    match env.index.get_commands mongo_doc with
    | [] => ls
    | c :: cs =>
        let vs := (c :: cs).map fun cc => cc.2.meta.version
        let last_payload := ((c :: cs).getLast (List.cons_ne_nil c cs)).2
        { ws := { ls.ws with versions := set_update ls.ws.versions vs }
          command_buffer := ls.command_buffer ++ (c :: cs)
          id_buffer := idbuf_set ls.id_buffer mongo_doc.id last_payload }
  if env.elasticsearch_bulk_size ≤ ls1.command_buffer.length then
    match send_to_elasticsearch env ls1.ws ls1.command_buffer ls1.id_buffer with
    | .error e => .error e
    | .ok ws => .ok (⟨ws, [], []⟩, true)
  else
    .ok (ls1, false)

/-- How the processing of the document stream ended. -/
inductive LoopEnd where
  | interrupted
  | raised (e : WorkerExc)
  | done (ls : LoopState)
deriving DecidableEq, Repr

/-- Process the documents that precede the queue sentinel in order.  A
`KeyboardInterrupt` is an asynchronous event; it is modelled by the
`interrupt` fuel: `some n` raises the interrupt at the boundary after
`n` documents have been processed (also before the residual flush when
`n` equals the document count), `none` never interrupts. -/
def process_docs (env : WorkerEnv) :
    Option Nat → List MongoDoc → LoopState → LoopEnd
  | some 0, _, _ => .interrupted
  | _, [], ls => .done ls
  | interrupt, d :: ds, ls =>
      match run_iteration env ls d with
      | .error e => .raised e
      | .ok (ls2, _) => process_docs env (interrupt.map fun n => n - 1) ds ls2

/-- The state a worker starts with: zero commands counted, no versions
seen, empty stats, empty buffers. -/
def initial_loop_state : LoopState := ⟨⟨0, [], [], []⟩, [], []⟩

/-- The summary a worker posts on the result queue: the tuple
`(process_id, command_count, stats, versions)`, embedded with named
components. -/
structure WorkerResult where
  process_id : Nat
  command_count : Nat
  stats : Stats
  versions : List Int
deriving DecidableEq, Repr

/-- Outcome of the whole `run` body (the code inside the `try`). -/
inductive RunEnd where
  | interrupted
  | raised (e : WorkerExc)
  | completed (r : WorkerResult)
deriving DecidableEq, Repr

/-- The residual flush after the sentinel: only when the command buffer
is non-empty. -/
def final_flush (env : WorkerEnv) (ls : LoopState) : Except WorkerExc WorkerState :=
  if ls.command_buffer.isEmpty then .ok ls.ws
  else send_to_elasticsearch env ls.ws ls.command_buffer ls.id_buffer

/-- The outcome of the `try` body of `IndexingProcess.run`: drain the
queue, flush the residual buffer, and assemble the result tuple. -/
def run_end (env : WorkerEnv) (interrupt : Option Nat) (docs : List MongoDoc) : RunEnd :=
  match process_docs env interrupt docs initial_loop_state with
  | .interrupted => .interrupted
  | .raised e => .raised e
  | .done ls =>
      match final_flush env ls with
      | .error e => .raised e
      | .ok ws => .completed ⟨env.process_id, ws.command_count, ws.stats, ws.versions⟩

/-- `IndexingProcess.run` with its `try`/`except` clauses: returns the
value pushed on the result queue (if any) and the list of strings pushed
on the error queue.  `KeyboardInterrupt` is swallowed; any other
exception is `repr`-ed onto the error queue. -/
def IndexingProcess.run (env : WorkerEnv) (interrupt : Option Nat)
    (docs : List MongoDoc) : Option WorkerResult × List String :=
  match run_end env interrupt docs with
  | .interrupted => (none, [])
  | .raised e => (none, [repr_exc e])
  | .completed r => (some r, [])

/-! ### The coordinator (`Indexer`, `indexers.py`) -/

/-- A feeder: the name of its logical source collection and the finite
document stream it produces. -/
structure Feeder where
  mongo_collection : String
  docs : List MongoDoc
deriving DecidableEq, Repr

/-- The attributes of a successfully constructed `Indexer` that the
claims touch. -/
structure IndexerModel where
  version : Int
  feeders : List Feeder
  indexes : List Index
deriving DecidableEq, Repr

/-- `Indexer.__init__`: `zip(*feeders_and_indexes)` unpacked into two
tuples.  On an empty sequence `zip()` yields nothing and the unpacking
raises a `ValueError`; otherwise the two tuples are the two projections. -/
def indexer_init (version : Int) (feeders_and_indexes : List (Feeder × Index)) :
    Except String IndexerModel :=
  if feeders_and_indexes.isEmpty then
    .error "ValueError: not enough values to unpack (expected 2, got 0)"
  else
    .ok { version := version
          feeders := feeders_and_indexes.map Prod.fst
          indexes := feeders_and_indexes.map Prod.snd }

/-- The exception raised by `Indexer.check_errors`, carrying the first
error string. -/
structure IndexingException where
  error_string : String
deriving DecidableEq, Repr

/-- `Indexer.check_errors` on queue snapshots: with a non-empty error
queue, pop the first error, drain the document queue, put `pool_size`
sentinels on it and raise; with an empty error queue do nothing.
Returns the resulting error queue, the resulting document queue and the
raised exception (if any). -/
def check_errors (pool_size : Nat) (error_queue : List String)
    (document_queue : List (Option MongoDoc)) :
    List String × List (Option MongoDoc) × Option IndexingException :=
  match error_queue with
  | [] => (error_queue, document_queue, none)
  | e :: rest => (rest, List.replicate pool_size none, some ⟨e⟩)

/-- The values appearing in the report dict built by `Indexer.get_stats`.
Datetimes are abstracted as integer timestamps, so the float
`total_seconds()` of their difference is an integer subtraction. -/
inductive ReportValue where
  | int (n : Int)
  | intList (l : List Int)
  | strList (l : List String)
  | ops (s : Stats)
deriving DecidableEq, Repr

/-- Python `sorted(set(l))`: the distinct elements in ascending order. -/
def sortedSet {α : Type} [LinearOrder α] (l : List α) : List α :=
  List.insertionSort (· ≤ ·) l.dedup

/-- `Indexer.get_stats`: the report dict, as an ordered list of
key/value pairs.  `seen_versions` and the `sources`/`targets`
comprehensions are Python sets, so `sorted` on them is `sortedSet`. -/
def Indexer.get_stats (ind : IndexerModel) (start : Int) (end_time : Int)
    (operations : Stats) (seen_versions : List Int) : List (String × ReportValue) :=
  [("version", ReportValue.int ind.version),
   ("versions", ReportValue.intList (sortedSet seen_versions)),
   ("sources", ReportValue.strList (sortedSet (ind.feeders.map Feeder.mongo_collection))),
   ("targets", ReportValue.strList (sortedSet (ind.indexes.map Index.name))),
   ("start", ReportValue.int start),
   ("end", ReportValue.int end_time),
   ("duration", ReportValue.int (end_time - start)),
   ("operations", ReportValue.ops operations)]

/-- The relation between two consecutive commands asserted by the
metadata-range claim, with the truthiness carve-out for a next version
equal to zero. -/
def AdjacentMeta (c c2 : BulkCommand) : Prop :=
  (c2.2.meta.version ≠ 0 →
    c.2.meta.next_version = some c2.2.meta.version ∧
    c.2.meta.versions.lt = some c2.2.meta.version ∧
    c.2.meta.version < c2.2.meta.version) ∧
  (c2.2.meta.version = 0 →
    c.2.meta.next_version = none ∧ c.2.meta.versions.lt = none)

/-! ### Concrete fixtures used by witnesses and counterexamples -/

/-- A small index target. -/
def idx0 : Index := ⟨"p-", "records", 100⟩

/-- The spec scenario document: id 7, versions 10 and 20. -/
def doc_w : MongoDoc := ⟨7, [(10, [("a", "1")]), (20, [("a", "2")])]⟩

/-- A document with strictly ascending unique versions whose second
version is `0`: the input exposing the truthiness test. -/
def doc0 : MongoDoc := ⟨1, [(-1, [("k", "x")]), (0, [("k", "y")])]⟩

/-- A document with no versions. -/
def doc_e : MongoDoc := ⟨3, []⟩

/-- A worker environment over a healthy cluster: every bulk call
succeeds with no per-item results reported. -/
def env0 : WorkerEnv :=
  { process_id := 0
    index := idx0
    is_clean_insert := true
    elasticsearch_bulk_size := 1000
    stats_queue_present := true
    es_bulk := fun _ => BulkOutcome.resp ⟨false, []⟩
    es_contains := fun _ => false }

/-- A worker environment whose cluster reports a bulk failure
(`errors: true`) on every bulk call, with bulk size 1 so the first
document already flushes. -/
def env_err : WorkerEnv :=
  { process_id := 0
    index := idx0
    is_clean_insert := true
    elasticsearch_bulk_size := 1
    stats_queue_present := true
    es_bulk := fun _ => BulkOutcome.resp ⟨true, []⟩
    es_contains := fun _ => false }

/-- Two feeders with out-of-order collection names. -/
def feeder0 : Feeder := ⟨"collection-b", []⟩

/-- See `feeder0`. -/
def feeder1 : Feeder := ⟨"collection-a", [doc_w]⟩

/-- A concrete coordinator with two feeders and one index. -/
def ind0 : IndexerModel := ⟨100, [feeder0, feeder1], [idx0]⟩

/-! ### Basic recursion lemmas for the command synthesis -/

theorem iter_pairs_nil {α : Type} : iter_pairs ([] : List α) = [] := rfl

theorem iter_pairs_cons {α : Type} (x : α) (xs : List α) :
    iter_pairs (x :: xs) = (x, xs.head?) :: iter_pairs xs := by
  cases xs <;> simp [iter_pairs]

theorem get_commands_nil (idx : Index) (i : Int) :
    idx.get_commands ⟨i, []⟩ = [] := rfl

theorem get_commands_cons (idx : Index) (i : Int) (p : Int × Data)
    (rest : List (Int × Data)) :
    idx.get_commands ⟨i, p :: rest⟩ =
      (idx.create_action i p.1,
       idx.create_index_document p.2 p.1 (rest.head?.map Prod.fst))
        :: idx.get_commands ⟨i, rest⟩ := by
  simp [Index.get_commands, get_versions_and_data, iter_pairs_cons]

theorem create_metadata_version (v : Int) (nv : Option Int) :
    (Index.create_metadata v nv).version = v := by
  unfold Index.create_metadata
  split <;> rfl

theorem create_metadata_gte (v : Int) (nv : Option Int) :
    (Index.create_metadata v nv).versions.gte = v := by
  unfold Index.create_metadata
  split <;> rfl

/-- The versions carried by the emitted commands are exactly the
document's version list, in order. -/
theorem get_commands_map_version (idx : Index) (i : Int) (vd : List (Int × Data)) :
    (idx.get_commands ⟨i, vd⟩).map (fun c => c.2.meta.version) = vd.map Prod.fst := by
  induction vd with
  | nil => rfl
  | cons p rest ih =>
      simp [get_commands_cons, Index.create_index_document, create_metadata_version, ih]

/-! ### Helper lemmas about the command synthesis -/

theorem get_commands_length (idx : Index) (i : Int) (vd : List (Int × Data)) :
    (idx.get_commands ⟨i, vd⟩).length = vd.length := by
  have h := congrArg List.length (get_commands_map_version idx i vd)
  simpa using h

theorem get_commands_action_id (idx : Index) (i : Int) (vd : List (Int × Data)) :
    ∀ c ∈ idx.get_commands ⟨i, vd⟩,
      c.1.action_id = toString i ++ ":" ++ toString c.2.meta.version := by
  induction vd with
  | nil =>
      intro c hc
      simp [get_commands_nil] at hc
  | cons p rest ih =>
      intro c hc
      rw [get_commands_cons] at hc
      rcases List.mem_cons.mp hc with h | h
      · subst h
        simp [Index.create_action, Index.create_index_document, create_metadata_version]
      · exact ih c h

theorem get_commands_gte (idx : Index) (i : Int) (vd : List (Int × Data)) :
    ∀ c ∈ idx.get_commands ⟨i, vd⟩,
      c.2.meta.versions.gte = c.2.meta.version := by
  induction vd with
  | nil =>
      intro c hc
      simp [get_commands_nil] at hc
  | cons p rest ih =>
      intro c hc
      rw [get_commands_cons] at hc
      rcases List.mem_cons.mp hc with h | h
      · subst h
        simp [Index.create_index_document, create_metadata_version, create_metadata_gte]
      · exact ih c h

theorem create_metadata_next_truthy (v : Int) (nv : Int) (h : nv ≠ 0) :
    Index.create_metadata v (some nv) =
      { versions := { gte := v, lt := some nv }, version := v, next_version := some nv } := by
  simp [Index.create_metadata, py_truthy, bne_iff_ne, h]

theorem create_metadata_next_zero (v : Int) :
    Index.create_metadata v (some 0) =
      { versions := { gte := v, lt := none }, version := v, next_version := none } := by
  simp [Index.create_metadata, py_truthy]

theorem create_metadata_next_none (v : Int) :
    Index.create_metadata v none =
      { versions := { gte := v, lt := none }, version := v, next_version := none } := rfl

theorem get_commands_chain (idx : Index) (i : Int) (vd : List (Int × Data))
    (hs : (vd.map Prod.fst).Pairwise (· < ·)) :
    List.Chain' AdjacentMeta (idx.get_commands ⟨i, vd⟩) := by
  induction vd with
  | nil =>
      simp [get_commands_nil]
  | cons p rest ih =>
      rw [get_commands_cons, List.chain'_cons']
      rw [List.map_cons, List.pairwise_cons] at hs
      refine ⟨?_, ih hs.2⟩
      intro y hy
      cases rest with
      | nil =>
          simp [get_commands_nil] at hy
      | cons q r =>
          rw [get_commands_cons] at hy
          simp only [List.head?_cons, Option.mem_def, Option.some.injEq] at hy
          subst hy
          have hver : (idx.create_index_document q.2 q.1
              ((r.head?).map Prod.fst)).meta.version = q.1 := by
            simp [Index.create_index_document, create_metadata_version]
          have hpq : p.1 < q.1 := hs.1 q.1 (by simp)
          constructor
          · intro hne
            rw [hver] at hne ⊢
            simp [Index.create_index_document, create_metadata_next_truthy p.1 q.1 hne,
              create_metadata_version, hver, hpq]
          · intro hzero
            rw [hver] at hzero
            simp [Index.create_index_document, hzero, create_metadata_next_zero]

theorem get_commands_getLast_meta (idx : Index) (i : Int) (vd : List (Int × Data)) :
    ∀ c, (idx.get_commands ⟨i, vd⟩).getLast? = some c →
      c.2.meta.next_version = none ∧ c.2.meta.versions.lt = none := by
  induction vd with
  | nil =>
      intro c hc
      simp [get_commands_nil] at hc
  | cons p rest ih =>
      cases rest with
      | nil =>
          intro c hc
          rw [get_commands_cons, get_commands_nil] at hc
          simp only [List.getLast?_singleton, Option.some.injEq] at hc
          subst hc
          simp [Index.create_index_document, create_metadata_next_none]
      | cons q r =>
          intro c hc
          rw [get_commands_cons, get_commands_cons] at hc
          rw [List.getLast?_cons_cons] at hc
          rw [← get_commands_cons] at hc
          exact ih c hc

/-! ### The claims -/

/-- C1: for every source document whose versions are sorted strictly
ascending (sorted and unique) with `k` elements, `Index.get_commands`
emits exactly `k` commands, in ascending version order; the command for
version `v` carries action `_id = "<record_id>:<v>"` and
`payload.meta.version = v`; and the versions over the emitted commands
are exactly the document's versions. -/
theorem get_commands_per_version_commands (idx : Index) (doc : MongoDoc)
    (h : (doc.versions_data.map Prod.fst).Pairwise (· < ·)) :
    (idx.get_commands doc).length = doc.versions_data.length ∧
    (idx.get_commands doc).map (fun c => c.2.meta.version) = doc.versions_data.map Prod.fst ∧
    ((idx.get_commands doc).map (fun c => c.2.meta.version)).Pairwise (· < ·) ∧
    (∀ c ∈ idx.get_commands doc,
      c.1.action_id = toString doc.id ++ ":" ++ toString c.2.meta.version) ∧
    (∀ v : Int, v ∈ (idx.get_commands doc).map (fun c => c.2.meta.version) ↔
      v ∈ doc.versions_data.map Prod.fst) := by
  obtain ⟨i, vd⟩ := doc
  refine ⟨get_commands_length idx i vd, get_commands_map_version idx i vd, ?_,
    get_commands_action_id idx i vd, ?_⟩
  · rw [get_commands_map_version]
    exact h
  · intro v
    rw [get_commands_map_version]

/-- C1 witness: the claim applied to the concrete two-version document. -/
theorem get_commands_per_version_commands_witness :
    ((doc_w.versions_data.map Prod.fst).Pairwise (· < ·)) ∧
    ((idx0.get_commands doc_w).length = doc_w.versions_data.length ∧
     (idx0.get_commands doc_w).map (fun c => c.2.meta.version) =
       doc_w.versions_data.map Prod.fst ∧
     ((idx0.get_commands doc_w).map (fun c => c.2.meta.version)).Pairwise (· < ·) ∧
     (∀ c ∈ idx0.get_commands doc_w,
       c.1.action_id = toString doc_w.id ++ ":" ++ toString c.2.meta.version) ∧
     (∀ v : Int, v ∈ (idx0.get_commands doc_w).map (fun c => c.2.meta.version) ↔
       v ∈ doc_w.versions_data.map Prod.fst)) :=
  ⟨by decide, get_commands_per_version_commands idx0 doc_w (by decide)⟩

/-- C2 counterexample: `doc0` has sorted ascending unique versions
`[-1, 0]`, so its first command is non-terminal (a following revision
exists), yet the emitted metadata has neither `versions.lt` nor
`next_version`, because `create_metadata` treats the next version `0` as
falsy.  The claim requires `next_version` to be present and strictly
greater than `version` for every non-terminal revision. -/
theorem metadata_zero_next_version_cex :
    (doc0.versions_data.map Prod.fst).Pairwise (· < ·) ∧
    (idx0.get_commands doc0).length = 2 ∧
    ((idx0.get_commands doc0).head?.map fun c =>
      (c.2.meta.versions.lt, c.2.meta.next_version)) = some (none, none) := by
  decide

/-- C2 (amended): for every command emitted by `Index.get_commands` on a
document with sorted strictly ascending versions, `meta.versions.gte`
equals `meta.version`; for every non-terminal revision whose following
version is nonzero, `meta.versions.lt = meta.next_version = ` that
following version, which is strictly greater than `meta.version`; for a
non-terminal revision whose following version equals `0`, and for the
terminal revision, both `meta.next_version` and `meta.versions.lt` are
absent. -/
theorem get_commands_metadata_ranges (idx : Index) (doc : MongoDoc)
    (hs : (doc.versions_data.map Prod.fst).Pairwise (· < ·)) :
    (∀ c ∈ idx.get_commands doc, c.2.meta.versions.gte = c.2.meta.version) ∧
    List.Chain' AdjacentMeta (idx.get_commands doc) ∧
    (∀ c, (idx.get_commands doc).getLast? = some c →
      c.2.meta.next_version = none ∧ c.2.meta.versions.lt = none) := by
  obtain ⟨i, vd⟩ := doc
  exact ⟨get_commands_gte idx i vd, get_commands_chain idx i vd hs,
    get_commands_getLast_meta idx i vd⟩

/-- C2 witness: the amended claim applied to the concrete two-version
document. -/
theorem get_commands_metadata_ranges_witness :
    ((doc_w.versions_data.map Prod.fst).Pairwise (· < ·)) ∧
    ((∀ c ∈ idx0.get_commands doc_w, c.2.meta.versions.gte = c.2.meta.version) ∧
     List.Chain' AdjacentMeta (idx0.get_commands doc_w) ∧
     (∀ c, (idx0.get_commands doc_w).getLast? = some c →
       c.2.meta.next_version = none ∧ c.2.meta.versions.lt = none)) :=
  ⟨by decide, get_commands_metadata_ranges idx0 doc_w (by decide)⟩

/-- C7: a source document with an empty version sequence yields zero
bulk commands: the pairing iterator emits nothing, so no command with an
absent `meta.version` is synthesized. -/
theorem get_commands_empty_versions (idx : Index) (record_id : Int) :
    idx.get_commands ⟨record_id, []⟩ = [] := rfl

/-- C10: `Index.create_metadata` tests `next_version` for truthiness
rather than presence: when the following revision's version equals `0`,
the emitted metadata omits both `versions.lt` and `next_version`,
exactly as it does for the terminal revision (`next_version = None`),
even though a next revision exists. -/
theorem create_metadata_truthy_zero :
    (Index.create_metadata (-1) (some 0)).next_version = none ∧
    (Index.create_metadata (-1) (some 0)).versions.lt = none ∧
    Index.create_metadata (-1) (some 0) = Index.create_metadata (-1) none := by
  decide

theorem collect_stats_clean (contains : Int → Bool) (ids : IdBuffer) :
    collect_stats true true contains ids = (ids.map Prod.fst, []) := by
  simp [collect_stats]

theorem collect_stats_dirty (contains : Int → Bool) (ids : IdBuffer) :
    collect_stats true false contains ids =
      ((ids.map Prod.fst).filter (fun i => ! contains i),
       (ids.map Prod.fst).filter contains) := by
  simp [collect_stats]

/-- C3: with a stats queue present, `IndexingProcess.collect_stats`
returns a pair `(created, updated)` that partitions the id buffer's key
set: the two lists are disjoint and their union is the set of ids seen
in the batch; and on a clean insert `created` is all the ids and
`updated` is empty. -/
theorem collect_stats_partition (is_clean : Bool) (contains : Int → Bool)
    (ids : IdBuffer) :
    List.Disjoint (collect_stats true is_clean contains ids).1
      (collect_stats true is_clean contains ids).2 ∧
    (∀ x : Int, (x ∈ (collect_stats true is_clean contains ids).1 ∨
        x ∈ (collect_stats true is_clean contains ids).2) ↔ x ∈ ids.map Prod.fst) ∧
    (collect_stats true true contains ids).1 = ids.map Prod.fst ∧
    (collect_stats true true contains ids).2 = [] := by
  refine ⟨?_, ?_, (collect_stats_clean contains ids).symm ▸ rfl, by
    rw [collect_stats_clean]⟩
  · cases is_clean with
    | true =>
        intro a _ hb
        rw [collect_stats_clean] at hb
        simp at hb
    | false =>
        intro a ha hb
        rw [collect_stats_dirty] at ha hb
        simp only [List.mem_filter, Bool.not_eq_eq_eq_not, Bool.not_true] at ha hb
        exact absurd hb.2 (by simp [ha.2])
  · intro x
    cases is_clean with
    | true =>
        rw [collect_stats_clean]
        simp
    | false =>
        rw [collect_stats_dirty]
        simp only [List.mem_filter]
        by_cases hc : contains x = true
        · simp [hc]
        · simp [hc]

/-- C5: when `Indexer.check_errors` sees a non-empty error queue it pops
the first error, discards every document on the document queue, puts
exactly `pool_size` sentinels on it and raises an `IndexingException`
carrying the first error string; with an empty error queue both queues
are untouched and nothing is raised. -/
theorem check_errors_behavior (pool_size : Nat) (e : String) (rest : List String)
    (dq : List (Option MongoDoc)) :
    check_errors pool_size [] dq = ([], dq, none) ∧
    check_errors pool_size (e :: rest) dq =
      (rest, List.replicate pool_size none, some ⟨e⟩) ∧
    (List.replicate pool_size (none : Option MongoDoc)).length = pool_size :=
  ⟨rfl, rfl, by simp⟩

/-- C9: `Indexer.__init__` on an empty `feeders_and_indexes` sequence
raises (the unpacking of `zip()` fails), and a successful construction
always yields at least one feeder and one index. -/
theorem indexer_init_nonempty (v : Int) (fi : Feeder × Index)
    (rest : List (Feeder × Index)) :
    indexer_init v [] =
      Except.error "ValueError: not enough values to unpack (expected 2, got 0)" ∧
    indexer_init v (fi :: rest) =
      Except.ok ⟨v, (fi :: rest).map Prod.fst, (fi :: rest).map Prod.snd⟩ ∧
    0 < ((fi :: rest).map Prod.fst).length ∧
    0 < ((fi :: rest).map Prod.snd).length := by
  refine ⟨rfl, rfl, by simp, by simp⟩

/-! ### Sorted sets and the report -/

theorem sortedSet_sorted {α : Type} [LinearOrder α] (l : List α) :
    (sortedSet l).Sorted (· ≤ ·) :=
  List.sorted_insertionSort _ _

theorem sortedSet_nodup {α : Type} [LinearOrder α] (l : List α) :
    (sortedSet l).Nodup :=
  (List.perm_insertionSort _ _).nodup_iff.mpr l.nodup_dedup

theorem mem_sortedSet {α : Type} [LinearOrder α] {x : α} {l : List α} :
    x ∈ sortedSet l ↔ x ∈ l := by
  unfold sortedSet
  rw [List.mem_insertionSort, List.mem_dedup]

/-- C6 counterexample: the report built by `Indexer.get_stats` has a
field named `duration` (holding the elapsed seconds), not
`duration_seconds`, so the claimed exact field list is wrong. -/
theorem report_duration_field_cex :
    ((Indexer.get_stats ind0 0 10 [] []).map Prod.fst =
      ["version", "versions", "sources", "targets", "start", "end", "duration",
        "operations"]) ∧
    "duration_seconds" ∉ (Indexer.get_stats ind0 0 10 [] []).map Prod.fst := by
  decide

/-- C6 (amended): the report returned at the end of a successful run has
exactly the fields `version`, `versions`, `sources`, `targets`, `start`,
`end`, `duration`, `operations`; `versions` is the sorted set of the
versions observed in emitted commands (the aggregated seen-version set),
`sources` the sorted set of the distinct feeder collection names and
`targets` the sorted set of the distinct prefixed index names. -/
theorem get_stats_report_shape (ind : IndexerModel) (start end_time : Int)
    (operations : Stats) (seen_versions : List Int) :
    ((Indexer.get_stats ind start end_time operations seen_versions).map Prod.fst =
      ["version", "versions", "sources", "targets", "start", "end", "duration",
        "operations"]) ∧
    (Indexer.get_stats ind start end_time operations seen_versions).lookup "versions" =
      some (ReportValue.intList (sortedSet seen_versions)) ∧
    (Indexer.get_stats ind start end_time operations seen_versions).lookup "sources" =
      some (ReportValue.strList (sortedSet (ind.feeders.map Feeder.mongo_collection))) ∧
    (Indexer.get_stats ind start end_time operations seen_versions).lookup "targets" =
      some (ReportValue.strList (sortedSet (ind.indexes.map Index.name))) ∧
    (sortedSet seen_versions).Sorted (· ≤ ·) ∧
    (sortedSet seen_versions).Nodup ∧
    (∀ v : Int, v ∈ sortedSet seen_versions ↔ v ∈ seen_versions) ∧
    (sortedSet (ind.feeders.map Feeder.mongo_collection)).Sorted (· ≤ ·) ∧
    (sortedSet (ind.feeders.map Feeder.mongo_collection)).Nodup ∧
    (∀ s : String, s ∈ sortedSet (ind.feeders.map Feeder.mongo_collection) ↔
      s ∈ ind.feeders.map Feeder.mongo_collection) ∧
    (sortedSet (ind.indexes.map Index.name)).Sorted (· ≤ ·) ∧
    (sortedSet (ind.indexes.map Index.name)).Nodup ∧
    (∀ s : String, s ∈ sortedSet (ind.indexes.map Index.name) ↔
      s ∈ ind.indexes.map Index.name) :=
  ⟨rfl, rfl, rfl, rfl,
   sortedSet_sorted _, sortedSet_nodup _, fun _ => mem_sortedSet,
   sortedSet_sorted _, sortedSet_nodup _, fun _ => mem_sortedSet,
   sortedSet_sorted _, sortedSet_nodup _, fun _ => mem_sortedSet⟩

/-! ### The worker loop claims -/

/-- C8: processing a source document for which `Index.get_commands`
yields zero commands leaves the worker's loop state (command buffer, id
buffer, seen-versions set, stats and command count) unchanged and does
not trigger a flush, provided the buffer is below the bulk size (the
loop invariant, as every flush empties the buffer). -/
theorem worker_skip_empty_commands (env : WorkerEnv) (ls : LoopState) (doc : MongoDoc)
    (hcmd : env.index.get_commands doc = [])
    (hbuf : ls.command_buffer.length < env.elasticsearch_bulk_size) :
    run_iteration env ls doc = Except.ok (ls, false) := by
  unfold run_iteration
  rw [hcmd]
  simp [Nat.not_le.mpr hbuf]

/-- C8 witness: the hypotheses hold and the conclusion follows for the
versionless document in the fresh worker state. -/
theorem worker_skip_empty_commands_witness :
    (env0.index.get_commands doc_e = [] ∧
     initial_loop_state.command_buffer.length < env0.elasticsearch_bulk_size) ∧
    run_iteration env0 initial_loop_state doc_e = Except.ok (initial_loop_state, false) :=
  ⟨⟨rfl, by decide⟩,
   worker_skip_empty_commands env0 initial_loop_state doc_e rfl (by decide)⟩

/-- C4: in `IndexingProcess.run`, an interrupt terminates the worker
with nothing pushed on the result or error queues; any other exception
pushes exactly one `repr` string (including the exception kind) on the
error queue and no result; and a result tuple is pushed if and only if
the body completed without interrupt or exception. -/
theorem run_queue_pushes (env : WorkerEnv) (interrupt : Option Nat)
    (docs : List MongoDoc) :
    (run_end env interrupt docs = RunEnd.interrupted →
      IndexingProcess.run env interrupt docs = (none, [])) ∧
    (∀ e : WorkerExc, run_end env interrupt docs = RunEnd.raised e →
      IndexingProcess.run env interrupt docs = (none, [repr_exc e])) ∧
    (∀ r : WorkerResult, (IndexingProcess.run env interrupt docs).1 = some r ↔
      run_end env interrupt docs = RunEnd.completed r) ∧
    (IndexingProcess.run env interrupt docs).2.length ≤ 1 := by
  rcases h : run_end env interrupt docs with _ | e0 | r0 <;>
    simp [IndexingProcess.run, h]

/-- C4 witness: the three outcomes at concrete inputs: an interrupt
before any document, a bulk failure on the first flush, and a completed
run. -/
theorem run_queue_pushes_witness :
    (run_end env0 (some 0) [] = RunEnd.interrupted ∧
     IndexingProcess.run env0 (some 0) [] = (none, [])) ∧
    (run_end env_err none [doc_w] =
      RunEnd.raised (WorkerExc.bulk_indexing ⟨true, []⟩) ∧
     IndexingProcess.run env_err none [doc_w] =
      (none, [repr_exc (WorkerExc.bulk_indexing ⟨true, []⟩)])) ∧
    (IndexingProcess.run env0 none [doc_w]).1 =
      some ⟨0, 2, [], [10, 20]⟩ :=
  ⟨⟨rfl, (run_queue_pushes env0 (some 0) []).1 rfl⟩,
   ⟨rfl, (run_queue_pushes env_err none [doc_w]).2.1 _ rfl⟩,
   ((run_queue_pushes env0 none [doc_w]).2.2.1 ⟨0, 2, [], [10, 20]⟩).mpr rfl⟩
